import Mathlib

/-!
# Verification of the beatsfmt source-rewriting pipeline

Shallow embedding of the core of the `beatsfmt` tool: license-header
resolution and injection, the formatter pipeline's change detector and
output dispatcher, the diff engine wrapper, and the per-file error
propagation of the driver.  Documents are byte/char buffers, paths are
component lists (innermost component first, so `filepath.Dir` is `List.tail`
and `filepath.Base` is the head), and the effectful dispatcher is modelled
as a pure function returning the list of performed effects together with
the returned error.
-/

namespace Beatsfmt

/-! ## Header representation: lines and byte blob

`processFile` reads the resolved header file and splits its contents on
`"\n"` (Go `strings.Split`); `licenseHeader` folds the line list back into
a byte blob by appending every line followed by a newline. -/

/-- Go `strings.Split(s, "\n")`: split a char buffer at every newline.
The result is never empty; splitting the empty buffer gives `[[]]`. -/
def splitLines : List Char → List (List Char)
  | [] => [[]]
  | c :: rest =>
    if c = '\n' then [] :: splitLines rest
    else
      match splitLines rest with
      | [] => [[c]]
      | l :: ls => (c :: l) :: ls

/-- The `headerBytes` accumulation loop of `licenseHeader`: every line of the
header followed by a newline, concatenated. -/
def headerBytes (header : List (List Char)) : List Char :=
  (header.map (fun l => l ++ ['\n'])).flatten

/-- Modelled from the spec: `licensing.ContainsHeader` (an external
collaborator whose code is not in this repository) performs a
prefix-oriented scan over the document's leading lines and reports whether
they match the header's line sequence exactly, line-for-line, in order. -/
def ContainsHeader (src : List Char) (header : List (List Char)) : Bool :=
  decide ((splitLines src).take header.length = header)

/-- Modelled from the spec: `licensing.RewriteWithHeader` (external
collaborator) prepends the header byte blob at byte offset 0. -/
def RewriteWithHeader (src headerBytes : List Char) : List Char :=
  headerBytes ++ src

/-- The formatter closure returned by `licenseHeader header`: return the
document unchanged when it already contains the header, otherwise prepend
the header blob. -/
def licenseHeader (header : List (List Char)) (src : List Char) : List Char :=
  if ContainsHeader src header then src
  else RewriteWithHeader src (headerBytes header)

/-! ### Splitting lemmas -/

theorem splitLines_ne_nil (s : List Char) : splitLines s ≠ [] := by
  induction s with
  | nil => simp [splitLines]
  | cons c rest ih =>
    simp only [splitLines]
    split
    · simp
    · cases h : splitLines rest with
      | nil => simp
      | cons l ls => simp

/-- Splitting a newline-free line followed by a newline peels off exactly
that line. -/
theorem splitLines_line_append (l rest : List Char) (hl : '\n' ∉ l) :
    splitLines (l ++ '\n' :: rest) = l :: splitLines rest := by
  induction l with
  | nil => simp [splitLines]
  | cons c l' ih =>
    have hc : c ≠ '\n' := by
      intro h; exact hl (by simp [h])
    have hl' : '\n' ∉ l' := fun h => hl (by simp [h])
    have h2 := ih hl'
    simp [splitLines, hc, h2]

/-- Splitting the header blob followed by any document yields the header
lines followed by the document's lines, provided the header lines are
newline-free. -/
theorem splitLines_headerBytes_append (header : List (List Char)) (d : List Char)
    (hnl : ∀ l ∈ header, '\n' ∉ l) :
    splitLines (headerBytes header ++ d) = header ++ splitLines d := by
  induction header with
  | nil => simp [headerBytes]
  | cons l h ih =>
    have h1 : headerBytes (l :: h) ++ d = l ++ '\n' :: (headerBytes h ++ d) := by
      simp [headerBytes, List.append_assoc]
    rw [h1, splitLines_line_append l _ (hnl l (by simp))]
    rw [ih (fun x hx => hnl x (by simp [hx]))]
    simp

theorem take_length_append (a b : List (List Char)) : (a ++ b).take a.length = a := by
  induction a with
  | nil => simp
  | cons x xs ih => simp [ih]

/-- An injected document always contains the header (newline-free lines). -/
theorem containsHeader_inject (header : List (List Char)) (d : List Char)
    (hnl : ∀ l ∈ header, '\n' ∉ l) :
    ContainsHeader (headerBytes header ++ d) header = true := by
  simp only [ContainsHeader, decide_eq_true_eq]
  rw [splitLines_headerBytes_append header d hnl, take_length_append]

/-! ### Blob/lines round-trip lemmas -/

/-- Rebuilding the blob from the split lines appends one extra newline to
the original contents. -/
theorem headerBytes_splitLines (c : List Char) :
    headerBytes (splitLines c) = c ++ ['\n'] := by
  induction c with
  | nil => simp [splitLines, headerBytes]
  | cons a rest ih =>
    by_cases ha : a = '\n'
    · subst ha
      simp only [splitLines, if_pos rfl]
      simp [headerBytes] at ih ⊢
      exact ih
    · simp only [splitLines, if_neg ha]
      cases h : splitLines rest with
      | nil => exact absurd h (splitLines_ne_nil rest)
      | cons l ls =>
        rw [h] at ih
        simp [headerBytes] at ih ⊢
        exact ih

/-- Splitting after appending a trailing newline adds one empty line. -/
theorem splitLines_append_newline (c : List Char) :
    splitLines (c ++ ['\n']) = splitLines c ++ [[]] := by
  induction c with
  | nil => simp [splitLines]
  | cons a rest ih =>
    by_cases ha : a = '\n'
    · subst ha
      simp [splitLines, ih]
    · cases h : splitLines rest with
      | nil => exact absurd h (splitLines_ne_nil rest)
      | cons l ls => simp [splitLines, ha, ih, h]

/-! ## Header file search (`processFile`, the `settings.license == ""` branch)

Absolute paths are modelled as component lists listed innermost component
first, so `filepath.Dir` is `List.tail` and `filepath.Base` is the head;
the filesystem root `/` is `[]`.  The filesystem is abstracted as a
decidable predicate `fs dir name` telling whether a regular file called
`name` exists in directory `dir`. -/

/-- A directory path: components innermost-first; `[]` is the root `/`. -/
abbrev DirPath := List String

/-- `const licenseFileName = ".go_license_header"` -/
def licenseFileName : String := ".go_license_header"

/-- `const xpackLicenseFileName = ".go_xpack_license_header"` -/
def xpackLicenseFileName : String := ".go_xpack_license_header"

/-- The `for dir != root && dir != "/"` loop of `processFile`: check the
sentinel base name, switch the expected filename if it matches, test for
the header file, otherwise step to the parent.  Returns the directory and
filename whose join the code assigns to `settings.license`. -/
def searchLoop (fs : DirPath → String → Bool) (root : DirPath) :
    DirPath → String → Option (DirPath × String)
  | [], _ => none
  | b :: parent, licType =>
    if b :: parent = root then none
    else
      let licType' := if b = "x-pack" then xpackLicenseFileName else licType
      if fs (b :: parent) licType' then some (b :: parent, licType')
      else searchLoop fs root parent licType'

/-- Header resolution without an explicit `-license` flag: the walk starts
at `filepath.Dir(start)` with the default expected filename. -/
def headerSearch (fs : DirPath → String → Bool) (root : DirPath)
    (start : List String) : Option (DirPath × String) :=
  searchLoop fs root start.tail licenseFileName

/-- The directories the walk examines, paired with the filename expected at
each: starting at the argument directory, stopping (exclusively) at the
configured root or at the filesystem root, carrying the sticky sentinel
switch. -/
def examinedDirs (root : DirPath) : DirPath → String → List (DirPath × String)
  | [], _ => []
  | b :: parent, licType =>
    if b :: parent = root then []
    else
      let licType' := if b = "x-pack" then xpackLicenseFileName else licType
      (b :: parent, licType') :: examinedDirs root parent licType'

/-- The walk is exactly a first-match scan over the examined directories. -/
theorem searchLoop_eq_find (fs : DirPath → String → Bool) (root : DirPath) :
    ∀ (dir : DirPath) (licType : String),
      searchLoop fs root dir licType =
        (examinedDirs root dir licType).find? (fun p => fs p.1 p.2) := by
  intro dir
  induction dir with
  | nil => intro licType; simp [searchLoop, examinedDirs]
  | cons b parent ih =>
    intro licType
    by_cases hr : b :: parent = root
    · simp [searchLoop, examinedDirs, hr]
    · simp only [searchLoop, examinedDirs, if_neg hr]
      by_cases hf : fs (b :: parent) (if b = "x-pack" then xpackLicenseFileName else licType)
      · simp [hf, List.find?]
      · simp [hf, List.find?, ih]

/-! ## Output dispatch (`processFile` after the pipeline ran)

The effectful tail of `processFile` is modelled as a pure function from the
settings, the pipeline input/output and an environment (the outcomes of the
file write and of the diff subprocess) to the list of performed effects and
the returned error. -/

/-- The `settings` struct (`part_001` variant). -/
structure settings where
  license : String
  licSearchCWD : Bool
  srcDir : String
  overwrite : Bool
  allErrors : Bool
  diff : Bool
  list : Bool
deriving DecidableEq

/-- An output destination: the process standard output, or the abstract
`out io.Writer` handed to `processFile`. -/
inductive Sink
  | stdout
  | writer (id : Nat)
deriving DecidableEq

/-- An observable side effect of the dispatch code. -/
inductive Effect
  /-- `out.Write(data)` -/
  | writeSink (s : Sink) (data : List Nat)
  /-- `fmt.Println(w, name)`: writes the default rendering of the writer
  operand `w`, a space, `name` and a newline to the process stdout. -/
  | printlnStdout (w : Sink) (name : String)
  /-- `fmt.Printf(s)` to the process stdout. -/
  | printfStdout (s : String)
  /-- `ioutil.WriteFile(name, data, 0)` -/
  | fileWrite (name : String) (data : List Nat)
deriving DecidableEq

/-- Outcomes of the effectful calls the dispatch code makes. -/
structure DispatchEnv where
  /-- error returned by `ioutil.WriteFile`, if the overwrite is attempted -/
  writeFileErr : Option String
  /-- result of `diff(src, res)`, if the diff is attempted -/
  diffResult : Except String (List Nat)

/-- The change detector and output dispatcher: the tail of `processFile`
from `if bytes.Equal(src, res)` on.  Returns the effects performed in
order, and the error returned to the caller. -/
def dispatch (st : settings) (filename : String) (out : Sink)
    (src res : List Nat) (env : DispatchEnv) : List Effect × Option String :=
  if src = res then
    if !st.list && !st.overwrite && !st.diff then ([Effect.writeSink out res], none)
    else ([], none)
  else
    let listFx := if st.list then [Effect.printlnStdout out filename] else []
    match (if st.overwrite then env.writeFileErr else none) with
    | some e => (listFx, some e)
    | none =>
      let owFx := listFx ++ (if st.overwrite then [Effect.fileWrite filename res] else [])
      match (if st.diff then some env.diffResult else none) with
      | some (Except.error e) => (owFx, some ("computing diff: " ++ e))
      | some (Except.ok data) =>
        let diffFx := owFx ++ [Effect.printfStdout ("diff " ++ filename ++ " gofmt/" ++ filename ++ "\n"),
          Effect.writeSink out data]
        (diffFx ++ (if !st.list && !st.overwrite && !st.diff then [Effect.writeSink out res] else []),
          none)
      | none =>
        (owFx ++ (if !st.list && !st.overwrite && !st.diff then [Effect.writeSink out res] else []),
          none)

/-! ## Diff engine (`diff`) -/

/-- Outcomes of the calls made by `diff`: the two `writeTmpFile` calls and
the `diff -u` subprocess (its combined output and its reported error). -/
structure DiffEnv where
  /-- error of `writeTmpFile(old)`, if any -/
  tmpOld : Option String
  /-- error of `writeTmpFile(new)`, if any -/
  tmpNew : Option String
  /-- combined output captured from the subprocess -/
  output : List Nat
  /-- error reported by the subprocess invocation, if any -/
  cmdErr : Option String

/-- The `diff` function: materialize both buffers, run the external
utility, and drop the subprocess error whenever any output was captured. -/
def diffRun (env : DiffEnv) : Except String (List Nat) :=
  match env.tmpOld with
  | some e => Except.error e
  | none =>
    match env.tmpNew with
    | some e => Except.error e
    | none =>
      if env.output.length > 0 then Except.ok env.output
      else
        match env.cmdErr with
        | some e => Except.error e
        | none => Except.ok env.output

/-! ## Traversal filter, walk callback and driver loop -/

/-- The mode bits of an `os.FileInfo` this program inspects. -/
inductive FileMode
  | regular
  | dir
  | other
deriving DecidableEq

/-- The part of `os.FileInfo` this program inspects. -/
structure FileInfo where
  name : String
  mode : FileMode
deriving DecidableEq

/-- Go `strings.HasPrefix(s, p)`. -/
def strHasPre (s p : String) : Bool :=
  p.data.isPrefixOf s.data

/-- Go `strings.HasSuffix(s, p)`. -/
def strHasSuf (s p : String) : Bool :=
  p.data.isSuffixOf s.data

/-- `isGoFile` (`part_001` variant): regular file, name not starting with
`"."`, name ending in `".go"`. -/
def isGoFile (fi : FileInfo) : Bool :=
  fi.mode == FileMode.regular && !(strHasPre fi.name ".") && strHasSuf fi.name ".go"

/-- The closure returned by `visitFile`, for one walk callback: given the
walk error, the entry's file info and the outcome `processFile` would
return, tells whether `processFile` was invoked and which errors were
logged.  The callback itself always returns nil to `filepath.Walk`. -/
def visitOutcome (walkErr : Option String) (fi : FileInfo)
    (procErr : Option String) : Bool × List String :=
  let processed := walkErr.isNone && isGoFile fi
  let err := if processed then procErr else walkErr
  (processed, match err with | some e => [e] | none => [])

/-- One positional argument of `main`: the `os.Stat` outcome, the walk
callbacks delivered if it is a directory, and the `processFile` outcome if
it is not. -/
structure ArgInput where
  stat : Except String FileInfo
  entries : List (Option String × FileInfo × Option String)
  procErr : Option String

/-- The per-path `switch` of `main`: exit-code contribution and logged
errors.  `visitFile`'s callback always returns nil, so `filepath.Walk`
reports no error for the directory case. -/
def runArg (a : ArgInput) : Nat × List String :=
  match a.stat with
  | Except.error e => (1, [e])
  | Except.ok fi =>
    if fi.mode == FileMode.dir then
      (0, (a.entries.map (fun t => (visitOutcome t.1 t.2.1 t.2.2).2)).flatten)
    else
      match a.procErr with
      | some e => (1, [e])
      | none => (0, [])

/-- The `for _, path := range paths` loop of `main`: processes every
argument in order, accumulating the exit code and the log. -/
def runMain : List ArgInput → Nat × List String
  | [] => (0, [])
  | a :: rest =>
    let r := runArg a
    let rr := runMain rest
    (max r.1 rr.1, r.2 ++ rr.2)

/-- Which branch of `main`'s per-path `switch` an argument takes. -/
inductive MainAction
  | logStat
  | walkDir
  | processPath
deriving DecidableEq

/-- The branch selection of `main`'s `switch` on the `os.Stat` result. -/
def explicitStep : Except String FileInfo → MainAction
  | Except.error _ => MainAction.logStat
  | Except.ok fi =>
    if fi.mode == FileMode.dir then MainAction.walkDir else MainAction.processPath

/-- An explicitly-passed, stat-failing or non-directory-failing argument:
used to characterize the exit code. -/
def explicitFailed (a : ArgInput) : Bool :=
  match a.stat with
  | Except.error _ => true
  | Except.ok fi => !(fi.mode == FileMode.dir) && a.procErr.isSome

/-- The log lines one argument contributes. -/
def argLogs (a : ArgInput) : List String :=
  match a.stat with
  | Except.error e => [e]
  | Except.ok fi =>
    if fi.mode == FileMode.dir then
      (a.entries.map (fun t => (visitOutcome t.1 t.2.1 t.2.2).2)).flatten
    else a.procErr.toList

/-- The exit-code contribution of one argument: 1 exactly for a failing
explicitly-passed path. -/
theorem runArg_exit (a : ArgInput) :
    (runArg a).1 = if explicitFailed a then 1 else 0 := by
  obtain ⟨st, es, pe⟩ := a
  cases st with
  | error e => simp [runArg, explicitFailed]
  | ok fi =>
    cases hfi : fi.mode == FileMode.dir with
    | true => simp [runArg, explicitFailed, hfi]
    | false => cases pe <;> simp [runArg, explicitFailed, hfi]

/-- The log contribution of one argument. -/
theorem runArg_logs (a : ArgInput) : (runArg a).2 = argLogs a := by
  obtain ⟨st, es, pe⟩ := a
  cases st with
  | error e => simp [runArg, argLogs]
  | ok fi =>
    cases hfi : fi.mode == FileMode.dir with
    | true => simp [runArg, argLogs, hfi]
    | false => cases pe <;> simp [runArg, argLogs, hfi]

/-! ## Claims -/

/-- C1: header injection is idempotent: applying the header-injection stage
twice equals applying it once, and a document whose leading lines already
match the header line-for-line is returned unchanged.  The header is a list
of lines, so its entries contain no newline. -/
theorem header_injection_idempotent (header : List (List Char)) (d : List Char)
    (hnl : ∀ l ∈ header, '\n' ∉ l) :
    licenseHeader header (licenseHeader header d) = licenseHeader header d
    ∧ (ContainsHeader d header = true → licenseHeader header d = d) := by
  constructor
  · cases hc : ContainsHeader d header with
    | true => simp [licenseHeader, hc]
    | false =>
      have h1 : licenseHeader header d = headerBytes header ++ d := by
        simp [licenseHeader, hc, RewriteWithHeader]
      rw [h1]
      simp [licenseHeader, containsHeader_inject header d hnl]
  · intro hc
    simp [licenseHeader, hc]

/-- C1 witness: the idempotence theorem applied to the concrete header
`["// H"]` and document `"package main\n"`. -/
theorem header_injection_idempotent_witness :
    licenseHeader [['/', '/', ' ', 'H']]
        (licenseHeader [['/', '/', ' ', 'H']]
          ['p', 'a', 'c', 'k', 'a', 'g', 'e', ' ', 'm', 'a', 'i', 'n', '\n'])
      = licenseHeader [['/', '/', ' ', 'H']]
          ['p', 'a', 'c', 'k', 'a', 'g', 'e', ' ', 'm', 'a', 'i', 'n', '\n'] :=
  (header_injection_idempotent [['/', '/', ' ', 'H']]
    ['p', 'a', 'c', 'k', 'a', 'g', 'e', ' ', 'm', 'a', 'i', 'n', '\n']
    (by decide)).1

/-- C8 counterexample: for the one-line header file contents `"h"` (no
trailing newline), the line list is `["h"]`, the blob is `"h\n"`, splitting
the blob back gives `["h", ""]` which is not the original line list, and
the blob differs from the file contents. -/
theorem header_roundtrip_counterexample :
    ¬ (splitLines (headerBytes (splitLines ['h'])) = splitLines ['h']
       ∧ headerBytes (splitLines ['h']) = ['h']) := by
  decide

/-- C8 amended: splitting the blob built from the header file's line list
yields the original line list with one extra empty line appended, and the
blob equals the header file's contents followed by one extra newline. -/
theorem header_roundtrip_amended (c : List Char) :
    splitLines (headerBytes (splitLines c)) = splitLines c ++ [[]]
    ∧ headerBytes (splitLines c) = c ++ ['\n'] := by
  refine ⟨?_, headerBytes_splitLines c⟩
  rw [headerBytes_splitLines c, splitLines_append_newline]

/-- C2 counterexample: with the search root `/r` holding a default-named
header file and the target `/r/a/f.go`, the walk checks `/r/a` and then
stops when the current directory equals the root, so the root directory is
never examined and the search returns "no header". -/
theorem search_root_not_checked_counterexample :
    headerSearch (fun d n => d == ["r"] && n == licenseFileName)
        ["r"] ["f.go", "a", "r"] = none
    ∧ (fun d n => d == ["r"] && n == licenseFileName) ["r"] licenseFileName = true := by
  constructor <;> decide

/-- C2 amended: the search examines exactly the directories obtained by
walking upward from the parent of the absolute start path (the directory
containing the target for a file path, but the parent of the current
working directory in search-from-CWD mode), stopping exclusively before the
configured root or the filesystem root: neither boundary directory is
checked, and when no examined directory holds the expected file the search
yields "no header" . -/
theorem search_walk_amended (fs : DirPath → String → Bool) (root : DirPath)
    (start : List String) :
    headerSearch fs root start =
      (examinedDirs root start.tail licenseFileName).find? (fun p => fs p.1 p.2)
    ∧ (headerSearch fs root start = none ↔
        ∀ p ∈ examinedDirs root start.tail licenseFileName, fs p.1 p.2 = false) := by
  refine ⟨searchLoop_eq_find fs root _ _, ?_⟩
  rw [headerSearch, searchLoop_eq_find]
  simp [List.find?_eq_none]

/-- C4: the sentinel switch is sticky: a directory whose base name is
`x-pack` switches the expected filename for itself and all subsequent
(shallower) checks of the walk; once the expected name is the alternate
one, every remaining examined directory uses it; and for the ancestry
`/root/pkg/x-pack/sub/file` with an alternate-name header at
`/root/pkg/x-pack/` and a default-name header at `/root/pkg/`, resolution
selects the alternate header. -/
theorem sentinel_switch_sticky :
    (∀ (root : DirPath) (parent : List String) (licType : String),
        ("x-pack" :: parent ≠ root) →
        examinedDirs root ("x-pack" :: parent) licType =
          ("x-pack" :: parent, xpackLicenseFileName)
            :: examinedDirs root parent xpackLicenseFileName)
    ∧ (∀ (root : DirPath) (dir : DirPath) (p : DirPath × String),
        p ∈ examinedDirs root dir xpackLicenseFileName → p.2 = xpackLicenseFileName)
    ∧ headerSearch
        (fun d n => (d == ["x-pack", "pkg", "root"] && n == xpackLicenseFileName)
          || (d == ["pkg", "root"] && n == licenseFileName))
        [] ["file", "sub", "x-pack", "pkg", "root"]
        = some (["x-pack", "pkg", "root"], xpackLicenseFileName) := by
  refine ⟨?_, ?_, by decide⟩
  · intro root parent licType hne
    simp [examinedDirs, hne]
  · intro root dir
    induction dir with
    | nil => intro p hp; simp [examinedDirs] at hp
    | cons b parent ih =>
      intro p hp
      by_cases hr : b :: parent = root
      · simp [examinedDirs, hr] at hp
      · simp only [examinedDirs, if_neg hr, ite_self, List.mem_cons] at hp
        rcases hp with hp | hp
        · subst hp; rfl
        · exact ih p hp

/-- C4 witness: the sticky-switch theorem applied at the sentinel directory
`/x-pack` with the whole filesystem as search range. -/
theorem sentinel_switch_sticky_witness :
    examinedDirs [] ["x-pack"] licenseFileName =
      (["x-pack"], xpackLicenseFileName)
        :: examinedDirs [] [] xpackLicenseFileName :=
  sentinel_switch_sticky.1 [] [] licenseFileName (by decide)

/-- C3: in list mode, for a changed file the code executes
`fmt.Println(out, filename)`, which writes the default rendering of the
writer operand followed by the filename to the process standard output; it
does not write the display name to the `out` writer.  At the concrete input
(list mode only, out writer #0, changed bytes) the complete effect list is
a single stdout println carrying the writer value, so nothing at all is
written to the configured report sink. -/
theorem list_mode_prints_writer_to_stdout :
    dispatch ⟨"", false, "", false, false, false, true⟩ "a.go" (Sink.writer 0)
        [0] [1] ⟨none, Except.ok []⟩
      = ([Effect.printlnStdout (Sink.writer 0) "a.go"], none) := by
  decide

/-- C5: when the pipeline output equals the input byte-for-byte, the
dispatcher streams the output to the configured sink if none of list,
overwrite or diff is requested, and performs no observable action at all
(and returns no error) if any of those flags is set. -/
theorem noop_on_unchanged (st : settings) (filename : String) (out : Sink)
    (src res : List Nat) (env : DispatchEnv) (heq : src = res) :
    (st.list = false ∧ st.overwrite = false ∧ st.diff = false →
      dispatch st filename out src res env = ([Effect.writeSink out res], none))
    ∧ (st.list = true ∨ st.overwrite = true ∨ st.diff = true →
      dispatch st filename out src res env = ([], none)) := by
  subst heq
  constructor
  · rintro ⟨h1, h2, h3⟩
    simp [dispatch, h1, h2, h3]
  · rintro (h | h | h) <;> simp [dispatch, h]

/-- C5 witness: the no-op theorem applied at a concrete unchanged document,
in default mode and in list mode. -/
theorem noop_on_unchanged_witness :
    dispatch ⟨"", false, "", false, false, false, false⟩ "a.go" Sink.stdout
        [7] [7] ⟨none, Except.ok []⟩
      = ([Effect.writeSink Sink.stdout [7]], none)
    ∧ dispatch ⟨"", false, "", false, false, false, true⟩ "a.go" Sink.stdout
        [7] [7] ⟨none, Except.ok []⟩
      = ([], none) :=
  ⟨(noop_on_unchanged _ "a.go" Sink.stdout [7] [7] _ rfl).1 ⟨rfl, rfl, rfl⟩,
   (noop_on_unchanged _ "a.go" Sink.stdout [7] [7] _ rfl).2 (Or.inl rfl)⟩

/-- C6: for a changed file (with the file write and the diff succeeding),
the list, overwrite and diff branches are independently gated by their
flags — the performed effects are exactly the concatenation of the gated
branch effects — and the default stream action fires only when none of the
three flags is set. -/
theorem independent_output_gating (st : settings) (filename : String) (out : Sink)
    (src res : List Nat) (env : DispatchEnv) (data : List Nat)
    (hne : src ≠ res) (hw : env.writeFileErr = none)
    (hd : env.diffResult = Except.ok data) :
    dispatch st filename out src res env =
      ((if st.list then [Effect.printlnStdout out filename] else [])
        ++ (if st.overwrite then [Effect.fileWrite filename res] else [])
        ++ (if st.diff then
              [Effect.printfStdout ("diff " ++ filename ++ " gofmt/" ++ filename ++ "\n"),
               Effect.writeSink out data]
            else [])
        ++ (if !st.list && !st.overwrite && !st.diff
            then [Effect.writeSink out res] else []),
        none) := by
  obtain ⟨lic, cwd, sd, ow, ae, df, li⟩ := st
  cases ow <;> cases df <;> cases li <;> simp [dispatch, hne, hw, hd]

/-- C6 witness: all three flags set simultaneously on a changed file — the
listing, overwrite and diff actions all fire for the same file, and the
default stream action does not. -/
theorem independent_output_gating_witness :
    dispatch ⟨"", false, "", true, false, true, true⟩ "a.go" (Sink.writer 1)
        [0] [1] ⟨none, Except.ok [5]⟩
      = ([Effect.printlnStdout (Sink.writer 1) "a.go",
          Effect.fileWrite "a.go" [1],
          Effect.printfStdout "diff a.go gofmt/a.go\n",
          Effect.writeSink (Sink.writer 1) [5]], none) :=
  (independent_output_gating ⟨"", false, "", true, false, true, true⟩ "a.go"
      (Sink.writer 1) [0] [1] ⟨none, Except.ok [5]⟩ [5]
      (by decide) rfl rfl).trans (by decide)

/-- C7: the diff operation returns the captured bytes with no error
whenever the subprocess produced any output, regardless of the reported
exit status; it returns an error exactly when a temporary-file write failed
or the subprocess produced zero output and reported a failure. -/
theorem diff_error_policy (env : DiffEnv) :
    (env.tmpOld = none → env.tmpNew = none → env.output ≠ [] →
      diffRun env = Except.ok env.output)
    ∧ ((∃ e, diffRun env = Except.error e) ↔
        (env.tmpOld ≠ none ∨ env.tmpNew ≠ none
          ∨ (env.output = [] ∧ env.cmdErr ≠ none))) := by
  obtain ⟨tOld, tNew, outData, cErr⟩ := env
  cases tOld <;> cases tNew <;> cases cErr <;> cases outData <;> simp [diffRun]

/-- C7 witness: nonempty captured output with a failing exit status still
succeeds and returns the captured bytes. -/
theorem diff_error_policy_witness :
    diffRun ⟨none, none, [3], some "exit status 1"⟩ = Except.ok [3] :=
  (diff_error_policy ⟨none, none, [3], some "exit status 1"⟩).1 rfl rfl (by decide)

/-- C9 counterexample: one directory argument whose walk delivers a single
regular `.go` file for which `processFile` fails: the error is logged, but
`visitFile` returns nil to the walk, so the process exit status stays 0
even though a per-file error occurred. -/
theorem walked_file_error_exit_zero_counterexample :
    runMain [⟨Except.ok ⟨"d", FileMode.dir⟩,
        [(none, ⟨"bad.go", FileMode.regular⟩, some "boom")], none⟩]
      = (0, ["boom"]) := by
  decide

/-- C9 amended: every per-file error is caught at the per-file boundary and
logged, and no per-file error prevents the remaining arguments from being
processed (the log is the concatenation of every argument's log lines, in
order); however only failures of explicitly-passed paths (a stat failure,
or a processing failure of a non-directory argument) make the exit status
nonzero — errors in files discovered by directory traversal are logged but
leave the exit status unchanged, so the exit status is 0 exactly when every
explicitly-passed path succeeded. -/
theorem per_file_error_propagation_amended (args : List ArgInput) :
    runMain args =
      (if args.any explicitFailed then 1 else 0, (args.map argLogs).flatten) := by
  induction args with
  | nil => simp [runMain]
  | cons a rest ih =>
    show (max (runArg a).1 (runMain rest).1, (runArg a).2 ++ (runMain rest).2) = _
    rw [ih, runArg_exit, runArg_logs]
    by_cases hf : explicitFailed a <;> by_cases hr : rest.any explicitFailed <;>
      simp [hf, hr]

/-- C10: during directory traversal a file is processed if and only if it
is a regular file whose name ends in `.go` and does not start with `.`;
entries that fail the filter produce no processing call and no log line;
and an explicitly-passed non-directory path takes the `processFile` branch
of `main` regardless of its name. -/
theorem traversal_filter (fi : FileInfo) (pe : Option String) :
    ((visitOutcome none fi pe).1 = true ↔
      (fi.mode = FileMode.regular ∧ strHasPre fi.name "." = false
        ∧ strHasSuf fi.name ".go" = true))
    ∧ (isGoFile fi = false → visitOutcome none fi pe = (false, []))
    ∧ (fi.mode ≠ FileMode.dir →
        explicitStep (Except.ok fi) = MainAction.processPath) := by
  refine ⟨?_, ?_, ?_⟩
  · simp only [visitOutcome, isGoFile, Option.isNone, Bool.true_and,
      Bool.and_eq_true, beq_iff_eq, Bool.not_eq_true']
    exact and_assoc
  · intro h
    simp [visitOutcome, h]
  · intro h
    cases hm : fi.mode <;> simp_all [explicitStep]

/-- C10 witness: the filter theorem applied at a regular file `a.go`
(processed by the walk) and at a regular file `notes.txt` (still processed
when passed explicitly). -/
theorem traversal_filter_witness :
    (visitOutcome none ⟨"a.go", FileMode.regular⟩ none).1 = true
    ∧ explicitStep (Except.ok ⟨"notes.txt", FileMode.regular⟩)
        = MainAction.processPath :=
  ⟨(traversal_filter ⟨"a.go", FileMode.regular⟩ none).1.mpr
      ⟨rfl, by decide, by decide⟩,
   (traversal_filter ⟨"notes.txt", FileMode.regular⟩ none).2.2 (by decide)⟩

end Beatsfmt
